import Mathlib

/-
Verification of the F1 telemetry coaching core (marco_core.py) against its
natural-language specification.  The Python source is shallowly embedded:
telemetry quantities (distances, times, speeds, pedal values) are modelled
as rationals, pandas DataFrames as lists of `Sample` records in row order,
and the stateful methods of `F1Coach`, `TrackAnalyzer` and `SmartTTSQueue`
as pure state-passing functions over explicit state structures.
-/

set_option maxRecDepth 8000

/- The Batteries rational-number operations are marked irreducible, which
blocks `decide`-style evaluation of the embedding on concrete telemetry;
restore the default reducibility (the definitions are unchanged). -/
set_option allowUnsafeReducibility true in
attribute [semireducible] Rat.add Rat.mul Rat.inv Rat.div Rat.sub Rat.neg

namespace F1Telemetry

/-- One telemetry row of a lap buffer, with the columns recorded by
`F1Coach.update_telemetry` (marco_core.py lines 2503-2512): lap_distance,
current_lap_time, speed, throttle, brake, gear, steer.  Position columns are
omitted (no claim touches them). -/
structure Sample where
  lap_distance : ℚ
  current_lap_time : ℚ
  speed : ℚ
  throttle : ℚ
  brake : ℚ
  gear : ℤ
  steer : ℚ
  deriving Repr, DecidableEq, Inhabited

/-- Ordering of samples by `lap_distance`, the key used by every
`sort_values('lap_distance')` in the source. -/
def distLE (a b : Sample) : Prop := a.lap_distance ≤ b.lap_distance

instance : DecidableRel distLE := fun a b => inferInstanceAs (Decidable (a.lap_distance ≤ b.lap_distance))

/-- Ordering of (distance, value) pairs by distance, used by the interpolator
after `sort_values('lap_distance')` (stable, ties broken by first occurrence,
as in pandas). -/
def pairLE (a b : ℚ × ℚ) : Prop := a.1 ≤ b.1

instance : DecidableRel pairLE := fun a b => inferInstanceAs (Decidable (a.1 ≤ b.1))

/-- Interior branch of `F1Coach._value_at_distance` (lines 1112-1120).
`bisect.bisect_left(distances, d)` finds the first index `idx` with
`distances[idx] >= d`; the code then interpolates between rows `idx-1` and
`idx` (returning the right value outright when the bracketing distances
coincide).  On the sorted list this walk finds exactly that bracket: it skips
rows while their distance is `< d` and interpolates between the last skipped
row (`prev`) and the first row at distance `>= d`. -/
def interpFrom (d : ℚ) (prev : ℚ × ℚ) : List (ℚ × ℚ) → ℚ
  | [] => prev.2
  | q :: rest =>
    if d ≤ q.1 then
      if q.1 ≤ prev.1 then q.2
      else prev.2 + (d - prev.1) / (q.1 - prev.1) * (q.2 - prev.2)
    else interpFrom d q rest

/-- Body of `F1Coach._value_at_distance` after the `sort_values` (lines
1103-1120): `None` on an empty frame, clamp below the first distance to the
first value and at or above the last distance to the last value, otherwise
linearly interpolate between the bracketing rows found by `bisect_left`. -/
def valueAtSorted (work : List (ℚ × ℚ)) (d : ℚ) : Option ℚ :=
  match work with
  | [] => none
  | p :: rest =>
    if d ≤ p.1 then some p.2
    else if ((p :: rest).getLast (List.cons_ne_nil p rest)).1 ≤ d then
      some (((p :: rest).getLast (List.cons_ne_nil p rest)).2)
    else some (interpFrom d p rest)

/-- Model of `F1Coach._value_at_distance` (lines 1096-1120): sort the series by
distance (stable), then evaluate. -/
def value_at_distance (series : List (ℚ × ℚ)) (d : ℚ) : Option ℚ :=
  valueAtSorted (List.insertionSort pairLE series) d

/-- Model of `F1Coach._time_at_distance` (lines 1070-1094) duplicates
`_value_at_distance` verbatim with the value column fixed to
`current_lap_time`. -/
def time_at_distance (df : List Sample) (d : ℚ) : Option ℚ :=
  value_at_distance (df.map fun s => (s.lap_distance, s.current_lap_time)) d

/-- Model of `TrackAnalyzer.get_reference_at_distance` (lines 662-664):
`(self.reference['lap_distance'] - lap_distance).abs().idxmin()` returns the
row label of the first row minimising `|lap_distance - d|`; after
`reset_index(drop=True)` labels are positions, so the method returns the
first nearest sample.  No interpolation is performed. -/
def nearestSample (d : ℚ) : List Sample → Option Sample
  | [] => none
  | s :: rest =>
    match nearestSample d rest with
    | none => some s
    | some t => if |s.lap_distance - d| ≤ |t.lap_distance - d| then some s else some t

/-- State read by `F1Coach.calculate_delta` (lines 2256-2260):
`track_analyzer` is `None` before a reference lap exists; otherwise it holds
the reference lap samples (sorted on construction by `TrackAnalyzer.__init__`,
line 500). -/
structure DeltaState where
  track_analyzer : Option (List Sample)
  current_lap_distance : ℚ
  current_lap_time : ℚ
  deriving Repr, DecidableEq

/-- Model of `F1Coach.calculate_delta` (lines 2256-2260): returns `0` when no
analyzer exists or the lap distance is under 100; otherwise subtracts the
nearest reference sample's `current_lap_time` from the live lap time. -/
def calculate_delta (st : DeltaState) : ℚ :=
  match st.track_analyzer with
  | none => 0
  | some refRaw =>
    if st.current_lap_distance < 100 then 0
    else
      match nearestSample st.current_lap_distance (List.insertionSort distLE refRaw) with
      | none => 0
      | some s => st.current_lap_time - s.current_lap_time

/-- Payload dict enqueued by `SmartTTSQueue.put` (lines 762-767): the message
text, the queue's `current_distance` at enqueue time, the `valid_range`, and
the `time.time()` timestamp (wall-clock seconds, modelled as a rational). -/
structure QueuedMessage where
  message : String
  distance : ℚ
  valid_range : ℚ
  timestamp : ℚ
  deriving Repr, DecidableEq, Inhabited

/-- An entry of the underlying `queue.PriorityQueue`: the tuple
`(priority, message_counter, payload)`.  The queue pops the least tuple;
counters are unique so the payload never takes part in comparisons. -/
abbrev PQEntry := Nat × Nat × QueuedMessage

/-- Pop order of `queue.PriorityQueue` on `(priority, counter, payload)`
tuples: lexicographic on priority then counter. -/
def entryLE (a b : PQEntry) : Prop := a.1 < b.1 ∨ (a.1 = b.1 ∧ a.2.1 ≤ b.2.1)

instance : DecidableRel entryLE :=
  fun a b => inferInstanceAs (Decidable (a.1 < b.1 ∨ (a.1 = b.1 ∧ a.2.1 ≤ b.2.1)))

/-- Model of `SmartTTSQueue` state (lines 747-756): the pending entries (kept in pop
order, modelling the heap), the last seen distance, and the monotonically
increasing message counter. -/
structure SmartTTSQueue where
  queue : List PQEntry
  current_distance : ℚ
  message_counter : Nat
  deriving Repr, DecidableEq

/-- Model of `SmartTTSQueue.put` (lines 758-768): increment the counter, reject
(return `False`) when the queue already holds at least 3 items and the
priority is medium (2) or lower, otherwise insert
`(priority, counter, payload)` and return `True`.  `now` is `time.time()`. -/
def SmartTTSQueue.put (st : SmartTTSQueue) (message : String) (priority : Nat)
    (valid_range : ℚ) (now : ℚ) : Bool × SmartTTSQueue :=
  let st1 := { st with message_counter := st.message_counter + 1 }
  if 3 ≤ st1.queue.length ∧ 2 ≤ priority then (false, st1)
  else
    let entry : PQEntry :=
      (priority, st1.message_counter, ⟨message, st1.current_distance, valid_range, now⟩)
    (true, { st1 with queue := List.orderedInsert entryLE entry st1.queue })

/-- Loop body of `SmartTTSQueue.get` (lines 772-782): pop entries in priority
order; an entry whose anchor distance is more than `valid_range` away from
`current_distance`, or whose age exceeds 3.0 seconds, is skipped (`continue`,
so it is discarded, never re-queued); the first fresh payload is returned.
An empty queue raises `queue.Empty`, returned as `none`.  The source returns
`data['message']`; the model returns the whole payload so staleness can be
stated about it. -/
def getLoop (current_distance now : ℚ) : List PQEntry → Option QueuedMessage × List PQEntry
  | [] => (none, [])
  | (_, _, m) :: rest =>
    if |current_distance - m.distance| > m.valid_range ∨ now - m.timestamp > 3 then
      getLoop current_distance now rest
    else (some m, rest)

/-- Model of `SmartTTSQueue.get` (lines 770-782): record the new current distance and
run the pop loop. -/
def SmartTTSQueue.get (st : SmartTTSQueue) (current_distance now : ℚ) :
    Option QueuedMessage × SmartTTSQueue :=
  let r := getLoop current_distance now st.queue
  (r.1, { st with queue := r.2, current_distance := current_distance })

/-- Lap-validity flags of `F1Coach` (lines 822-823) plus a count of the
invalidation events (the body of the edge-trigger branch, lines 1883-1888,
which latches the flags and emits the "lap invalidated" cue). -/
structure ValidityState where
  lap_is_invalid : Bool
  lap_was_invalid : Bool
  invalidation_events : Nat
  deriving Repr, DecidableEq

/-- Model of `F1Coach._check_lap_validity` (lines 1882-1889): the edge branch fires
when the flag is raised and `lap_was_invalid` is still clear; afterwards
`lap_is_invalid` is unconditionally reassigned to the instantaneous flag
(line 1889). -/
def check_lap_validity (st : ValidityState) (is_invalid : Bool) : ValidityState :=
  let st1 :=
    if is_invalid ∧ ¬ st.lap_was_invalid then
      { st with lap_is_invalid := true, lap_was_invalid := true,
                invalidation_events := st.invalidation_events + 1 }
    else st
  { st1 with lap_is_invalid := is_invalid }

/-- Flag state right after a lap boundary: `update_telemetry` resets both
flags on every lap-number change (lines 2456-2457). -/
def freshValidity : ValidityState := ⟨false, false, 0⟩

/-- Processing the within-lap sequence of validity flags, one per sample
(`update_telemetry` calls `_check_lap_validity(lap_invalid == 1)` once per
tick, line 2498). -/
def runValidity (st : ValidityState) (flags : List Bool) : ValidityState :=
  flags.foldl check_lap_validity st

/-- Slice `df.iloc[a:b]` of a row list. -/
def sliceIdx (df : List Sample) (a b : Nat) : List Sample := (df.drop a).take (b - a)

/-- Value of `series.rolling(window=w, min_periods=1).mean()` at row `i`:
the mean of the last at-most-`w` values up to and including row `i`
(used for `brake_smooth`, window 5, and `steer_smooth`, window 7,
marco_core.py lines 508-510). -/
def trailingMean (w : Nat) (xs : List ℚ) (i : Nat) : ℚ :=
  let seg := (xs.take (i + 1)).reverse.take w
  if seg.length = 0 then 0 else seg.sum / (seg.length : ℚ)

/-- Position of the first minimum of a list (`Series.idxmin` on a
positionally-labelled frame). -/
def argminIdx : List ℚ → Nat
  | [] => 0
  | [_] => 0
  | x :: y :: rest =>
    let j := argminIdx (y :: rest)
    if x ≤ (y :: rest).getD j 0 then 0 else j + 1

/-- Minimum of a rational list (`Series.min`), 0 on the empty list (never
reached: every caller guards non-emptiness). -/
def listMinQ : List ℚ → ℚ
  | [] => 0
  | [x] => x
  | x :: y :: rest => min x (listMinQ (y :: rest))

/-- Minimum of the gear column (`int(zone_data['gear'].min())`). -/
def listMinZ : List ℤ → ℤ
  | [] => 0
  | [x] => x
  | x :: y :: rest => min x (listMinZ (y :: rest))

/-- A braking zone / corner record as built by `TrackAnalyzer._analyze`
(lines 542-552, 583-593) and `_build_fallback_corners` (lines 728-738).
`turn_number` is assigned by the numbering pass (lines 643-647); the alias
keys `start_distance`/`apex_distance`/`end_distance` set there merely copy
`start_dist`/`min_speed_dist`/`exit_dist` and are omitted. -/
structure Zone where
  start_dist : ℚ
  end_dist : ℚ
  exit_dist : ℚ
  entry_speed : ℚ
  min_speed : ℚ
  min_speed_dist : ℚ
  min_gear : ℤ
  brake_start_dist : Option ℚ
  throttle_on_dist : Option ℚ
  turn_number : Nat := 0
  deriving Repr, DecidableEq, Inhabited

/-- Ordering of zones by `start_dist` (`sort(key=lambda z: z['start_dist'])`). -/
def zoneLE (a b : Zone) : Prop := a.start_dist ≤ b.start_dist

instance : DecidableRel zoneLE := fun a b => inferInstanceAs (Decidable (a.start_dist ≤ b.start_dist))

/-- Search for the first row after the apex with `throttle > 0.5` inside
`df.iloc[min_speed_idx : min(min_speed_idx + 120, len(df))]`
(lines 532-537, 570-575, 721-726). -/
def throttleOnDist (df : List Sample) (minIdx : Nat) : Option ℚ :=
  ((sliceIdx df minIdx (min (minIdx + 120) df.length)).find?
      (fun r => decide ((1 : ℚ)/2 < r.throttle))).map (·.lap_distance)

/-- Braking-zone record for `zone_data = df.iloc[zone_start:idx]`
(lines 523-552): kept only when the span covers more than 3 rows.
`min_speed_idx` is the first row of minimal speed inside the zone (a global
row position), and `min_speed_dist` reads `df` at that position. -/
def mkBrakeZone (df : List Sample) (a b : Nat) : Option Zone :=
  let zd := sliceIdx df a b
  if zd.length ≤ 3 then none
  else
    let startd := (zd.headD default).lap_distance
    let minIdx := a + argminIdx (zd.map (·.speed))
    some
      { start_dist := startd
        end_dist := (zd.getLastD default).lap_distance
        exit_dist := (zd.getLastD default).lap_distance + 50
        entry_speed := (zd.headD default).speed
        min_speed := listMinQ (zd.map (·.speed))
        min_speed_dist := ((df.drop minIdx).headD default).lap_distance
        min_gear := listMinZ (zd.map (·.gear))
        brake_start_dist := some startd
        throttle_on_dist := throttleOnDist df minIdx }

/-- State of the open/close scans over the smoothed signals. -/
structure ScanState where
  inZone : Bool
  zoneStart : Nat
  zones : List Zone

/-- One step of the braking-zone scan (lines 517-525): open when the
smoothed brake exceeds 0.2 and no zone is open; close when it drops below
0.1 with a zone open, recording the zone if long enough. -/
def brakeStep (df : List Sample) (sm : Nat → ℚ) (st : ScanState) (i : Nat) : ScanState :=
  if (1 : ℚ)/5 < sm i ∧ ¬ st.inZone then { st with inZone := true, zoneStart := i }
  else if sm i < (1 : ℚ)/10 ∧ st.inZone then
    { inZone := false, zoneStart := st.zoneStart,
      zones := st.zones ++ (mkBrakeZone df st.zoneStart i).toList }
  else st

/-- The braking zones detected over a (sorted) lap frame (lines 508,
514-552); a zone still open at the end of the frame is dropped, exactly as
in the source. -/
def brakingZonesOf (df : List Sample) : List Zone :=
  let sm := trailingMean 5 (df.map (·.brake))
  ((List.range df.length).foldl (brakeStep df sm) ⟨false, 0, []⟩).zones

/-- Model of `finalize_steering_corner` (lines 554-593): reject empty or reversed
spans, spans under 6 rows, and spans shorter than 20 distance units;
otherwise build the corner record, with `brake_start_dist` the first row of
the span with raw `brake > 0.2` (may be absent). -/
def finalizeSteeringCorner (df : List Sample) (a b : Nat) : Option Zone :=
  if b ≤ a then none
  else
    let zd := sliceIdx df a b
    if zd.length < 6 then none
    else
      let startd := (zd.headD default).lap_distance
      let endd := (zd.getLastD default).lap_distance
      if endd - startd < 20 then none
      else
        let minIdx := a + argminIdx (zd.map (·.speed))
        some
          { start_dist := startd
            end_dist := endd
            exit_dist := endd + 45
            entry_speed := (zd.headD default).speed
            min_speed := listMinQ (zd.map (·.speed))
            min_speed_dist := ((df.drop minIdx).headD default).lap_distance
            min_gear := listMinZ (zd.map (·.gear))
            brake_start_dist := ((zd.find? (fun r => decide ((1 : ℚ)/5 < r.brake))).map (·.lap_distance))
            throttle_on_dist := throttleOnDist df minIdx }

/-- One step of the steering scan (lines 601-611): open when the smoothed
absolute steering exceeds 0.12, close when it does not. -/
def steerStep (df : List Sample) (sm : Nat → ℚ) (st : ScanState) (i : Nat) : ScanState :=
  if (12 : ℚ)/100 < sm i ∧ ¬ st.inZone then { st with inZone := true, zoneStart := i }
  else if ¬ ((12 : ℚ)/100 < sm i) ∧ st.inZone then
    { inZone := false, zoneStart := st.zoneStart,
      zones := st.zones ++ (finalizeSteeringCorner df st.zoneStart i).toList }
  else st

/-- Steering-based corners (lines 595-616): the scan over `steer_smooth`
(trailing mean of `|steer|`, window 7), plus the zone still open at the end
of the lap, closed at `len(df)`. -/
def steeringCornersOf (df : List Sample) : List Zone :=
  let sm := trailingMean 7 (df.map (fun s => |s.steer|))
  let fin := (List.range df.length).foldl (steerStep df sm) ⟨false, 0, []⟩
  fin.zones ++ (if fin.inZone then (finalizeSteeringCorner df fin.zoneStart df.length).toList else [])

/-- Overlap test merging a steering corner with a braking zone
(lines 624-628): span overlap with a 45-unit buffer, or apexes within 80
units. -/
def overlapsB (c z : Zone) : Bool :=
  (decide (c.start_dist ≤ z.end_dist + 45) && decide (z.start_dist - 45 ≤ c.end_dist))
    || decide (|c.min_speed_dist - z.min_speed_dist| < 80)

/-- Corner list before the sparse-fallback check (lines 618-636): braking
zones sorted by start, steering corners that overlap no braking zone added,
the union sorted by start. -/
def combinedCorners (df : List Sample) : List Zone :=
  let bz := List.insertionSort zoneLE (brakingZonesOf df)
  let extra := (steeringCornersOf df).filter (fun c => ! bz.any (fun z => overlapsB c z))
  List.insertionSort zoneLE (bz ++ extra)

/-- Fallback zone record (lines 705-738): reject reversed spans, spans under
5 rows and spans shorter than 20 units. -/
def mkFallbackZone (df : List Sample) (a b : Nat) : Option Zone :=
  if b ≤ a then none
  else
    let zd := sliceIdx df a b
    if zd.length < 5 then none
    else
      let startd := (zd.headD default).lap_distance
      let endd := (zd.getLastD default).lap_distance
      if endd - startd < 20 then none
      else
        let minIdx := a + argminIdx (zd.map (·.speed))
        some
          { start_dist := startd
            end_dist := endd
            exit_dist := endd + 45
            entry_speed := (zd.headD default).speed
            min_speed := listMinQ (zd.map (·.speed))
            min_speed_dist := ((df.drop minIdx).headD default).lap_distance
            min_gear := listMinZ (zd.map (·.gear))
            brake_start_dist := some startd
            throttle_on_dist := throttleOnDist df minIdx }

/-- One step of `_build_fallback_corners` (lines 698-704): looser open
threshold 0.25 on the same smoothed brake signal, close below 0.1. -/
def fallbackStep (df : List Sample) (sm : Nat → ℚ) (st : ScanState) (i : Nat) : ScanState :=
  if (1 : ℚ)/4 < sm i ∧ ¬ st.inZone then { st with inZone := true, zoneStart := i }
  else if st.inZone ∧ sm i < (1 : ℚ)/10 then
    { inZone := false, zoneStart := st.zoneStart,
      zones := st.zones ++ (mkFallbackZone df st.zoneStart i).toList }
  else st

/-- Model of `TrackAnalyzer._build_fallback_corners` (lines 692-741), sorted by start
distance. -/
def fallbackCorners (df : List Sample) : List Zone :=
  let sm := trailingMean 5 (df.map (·.brake))
  List.insertionSort zoneLE
    (((List.range df.length).foldl (fallbackStep df sm) ⟨false, 0, []⟩).zones)

/-- The sorted lap frame built by `TrackAnalyzer.__init__` (line 500). -/
def analyzeDf (refRaw : List Sample) : List Sample := List.insertionSort distLE refRaw

/-- Corner list after the sparse-fallback check (lines 638-641): when the
combined detection finds fewer than 3 corners, the fallback list replaces it
only if it is strictly longer. -/
def analyzeCornersPre (refRaw : List Sample) : List Zone :=
  let df := analyzeDf refRaw
  let comb := combinedCorners df
  if comb.length < 3 then
    let fb := fallbackCorners df
    if comb.length < fb.length then fb else comb
  else comb

/-- The numbering pass (lines 643-647): corners receive 1-based turn numbers
in list (ascending start-distance) order. -/
def numberCorners (cs : List Zone) : List Zone :=
  (List.enumFrom 1 cs).map (fun p => { p.2 with turn_number := p.1 })

/-- Model of `TrackAnalyzer._analyze` end-to-end on a raw reference lap: `self.corners`
after numbering. -/
def analyzeCorners (refRaw : List Sample) : List Zone :=
  numberCorners (analyzeCornersPre refRaw)

/-- Model of `self.braking_zones` of the analyzer (sorted at line 618; not replaced by
the fallback). -/
def analyzeBrakingZones (refRaw : List Sample) : List Zone :=
  List.insertionSort zoneLE (brakingZonesOf (analyzeDf refRaw))

/-- Model of `TrackAnalyzer.get_next_braking_zone` (lines 656-660): first zone with
start strictly past the current distance, else the first zone of the sorted
list, else `None`. -/
def get_next_braking_zone (zones : List Zone) (current_distance : ℚ) : Option Zone :=
  match zones.find? (fun z => decide (current_distance < z.start_dist)) with
  | some z => some z
  | none => zones.head?

/-- Wrap-around adjustment of `_check_braking_zones` (lines 2282-2284): a
negative distance-to-zone has the track length added, so a warning for the
first corner can fire near the end of the lap. -/
def distance_to_zone (startDist currentDist trackLength : ℚ) : ℚ :=
  let dtz := startDist - currentDist
  if dtz < 0 then dtz + trackLength else dtz

/-- Reference-lap state written by `F1Coach._finish_lap` (lines 2090-2133):
`self.reference` (the raw lap frame) and `self.reference_lap_time` are always
assigned together on promotion, so they are modelled as one option;
`corners` is `self.track_analyzer.corners`, rebuilt from the new reference by
`TrackAnalyzer(self.reference)` (line 2101). -/
structure RefEngine where
  reference : Option (List Sample × ℚ)
  corners : List Zone
  deriving Repr, DecidableEq

/-- Session start: no reference, no analyzer (lines 843-846). -/
def initRefEngine : RefEngine := ⟨none, []⟩

/-- Reference-promotion core of `F1Coach._finish_lap` (lines 2031-2133):
an empty lap buffer or non-positive lap time is ignored (line 2032); an
invalid lap (`self.lap_is_invalid`, line 2073) is discarded without touching
the reference; a valid lap is promoted exactly when no reference exists or
its time beats the current reference time strictly (line 2094), rebuilding
the corner list from the new reference lap. -/
def finish_lap (st : RefEngine) (lapData : List Sample) (lapTime : ℚ)
    (lapIsInvalid : Bool) : RefEngine :=
  if lapData = [] ∨ lapTime ≤ 0 then st
  else if lapIsInvalid then st
  else
    let promote :=
      match st.reference with
      | none => true
      | some r => lapTime < r.2
    if promote then ⟨some (lapData, lapTime), analyzeCorners lapData⟩ else st

/-- Per-corner rolling history `self.corner_history[turn]` (lines 1419-1425):
five parallel signal lists; entries may be `None`. -/
structure CornerHist where
  entry : List (Option ℚ)
  apex : List (Option ℚ)
  exitS : List (Option ℚ)
  delta : List (Option ℚ)
  brake : List (Option ℚ)
  deriving Repr, DecidableEq, Inhabited

/-- The per-corner metric dict consumed by the analytics updates (the fields
read by `_update_corner_mastery` and `_update_skill_scores`); missing keys
read as `None`. -/
structure CornerMetric where
  turn : Nat
  entry_speed : Option ℚ
  apex_speed : Option ℚ
  exit_speed : Option ℚ
  delta_vs_ref : Option ℚ
  brake_point : Option ℚ
  throttle_point : Option ℚ
  deriving Repr, DecidableEq, Inhabited

/-- One row of `self.corner_mastery` (lines 1456-1462). -/
structure MasteryRow where
  turn : Nat
  score : ℚ
  avg_delta : ℚ
  consistency_sigma : ℚ
  trend : ℚ
  deriving Repr, DecidableEq, Inhabited

/-- A `{'turn': ..., 'sigma': ...}` entry of `corner_sigmas` (line 1479). -/
structure SigmaRow where
  turn : Nat
  sigma : ℚ
  deriving Repr, DecidableEq, Inhabited

/-- Model of `self.consistency_metrics` (lines 1488-1504). -/
structure ConsistencyMetrics where
  lap_sigma : ℚ
  s1_sigma : ℚ
  s2_sigma : ℚ
  s3_sigma : ℚ
  most_inconsistent_corner : Option SigmaRow
  most_consistent_corner : Option SigmaRow
  braking_point_sigma : Option ℚ
  deriving Repr, DecidableEq, Inhabited

/-- Model of `self.skill_scores` (lines 1632-1638). -/
structure SkillScores where
  braking_precision : ℚ
  throttle_smoothness : ℚ
  corner_exit_quality : ℚ
  consistency : ℚ
  line_adherence : ℚ
  deriving Repr, DecidableEq, Inhabited

/-- The two entries of `self.driver_profile['stats']` read by
`_update_skill_scores` (lines 1616, 1629); `none` models a missing stats
dict, for which the source substitutes the defaults 0.08 and 1.0. -/
structure DriverStats where
  throttle_jerk : ℚ
  turn_in_rate : ℚ
  deriving Repr, DecidableEq, Inhabited

/-- The `F1Coach` fields read and written by the three analytics updates
named by the spec: `_update_corner_mastery`, `_update_consistency_metrics`
and `_update_skill_scores`.  `corner_history` is a Python dict in insertion
order, modelled as an association list.  `driver_profile` is written only by
`_update_driver_profile`, which is outside these three functions, so it is
carried as a fixed input here. -/
structure AnalyticsState where
  corner_history : List (Nat × CornerHist)
  valid_lap_times : List ℚ
  sector1_history : List ℚ
  sector2_history : List ℚ
  sector3_history : List ℚ
  reference_corner_metrics : List (Nat × CornerMetric)
  driver_profile : Option DriverStats
  corner_mastery : List MasteryRow
  consistency_metrics : ConsistencyMetrics
  skill_scores : SkillScores
  deriving Repr, DecidableEq, Inhabited

/-- Model of `F1Coach._clamp` (lines 1059-1061): `max(lo, min(hi, value))`. -/
def clamp (value lo hi : ℚ) : ℚ := max lo (min hi value)

/-- Square root used by `statistics.pstdev`, taken on the numerator and
denominator of the (non-negative) radicand.  It is exact whenever the
radicand is the square of a rational, which covers every evaluation in the
theorems below (radicand 0); elsewhere it is a floor approximation of the
irrational float the source would produce. -/
def ratSqrt (q : ℚ) : ℚ :=
  if q ≤ 0 then 0 else (Nat.sqrt q.num.toNat : ℚ) / (Nat.sqrt q.den : ℚ)

/-- Model of `statistics.pstdev`: square root of the population variance. -/
def pstdev (xs : List ℚ) : ℚ :=
  if xs.length = 0 then 0
  else
    let m := xs.sum / (xs.length : ℚ)
    ratSqrt (((xs.map (fun x => (x - m) ^ 2)).sum) / (xs.length : ℚ))

/-- Model of `F1Coach._stddev` (lines 1063-1068): drop `None`s, return 0 for fewer
than two values, else the population standard deviation. -/
def stddev (xs : List (Option ℚ)) : ℚ :=
  let clean := xs.filterMap id
  if clean.length < 2 then 0 else pstdev clean

/-- Python slice `xs[-n:]`. -/
def lastN (n : Nat) (xs : List α) : List α := xs.drop (xs.length - n)

/-- Python `round(x, k)` on our rational model (round half up; the source
rounds floats half to even, but no evaluation below sits on a tie). -/
def pyRound (k : Nat) (x : ℚ) : ℚ := ((⌊x * 10 ^ k + 1/2⌋ : ℤ) : ℚ) / 10 ^ k

/-- Appending one lap's signals to a corner's history and truncating each
list to the last `CORNER_HISTORY_WINDOW = 12` entries (lines 1427-1435). -/
def histAppend (h : CornerHist) (m : CornerMetric) : CornerHist :=
  let push := fun (l : List (Option ℚ)) (v : Option ℚ) =>
    let l2 := l ++ [v]
    if 12 < l2.length then lastN 12 l2 else l2
  ⟨push h.entry m.entry_speed, push h.apex m.apex_speed, push h.exitS m.exit_speed,
    push h.delta m.delta_vs_ref, push h.brake m.brake_point⟩

/-- Model of `self.corner_history.setdefault(turn, {...})` followed by the appends:
update the association list at the key, inserting an empty history at the
end when the key is new (Python dict insertion order). -/
def updateHistAt (l : List (Nat × CornerHist)) (k : Nat) (m : CornerMetric) :
    List (Nat × CornerHist) :=
  match l with
  | [] => [(k, histAppend ⟨[], [], [], [], []⟩ m)]
  | (k2, h) :: rest =>
    if k2 = k then (k2, histAppend h m) :: rest else (k2, h) :: updateHistAt rest k m

/-- Key order of `sorted(self.corner_history.items())` (line 1438). -/
def keyLE (a b : Nat × CornerHist) : Prop := a.1 ≤ b.1

instance : DecidableRel keyLE := fun a b => inferInstanceAs (Decidable (a.1 ≤ b.1))

/-- One mastery row (lines 1439-1462): skipped when the corner has no
non-`None` delta; pace and consistency components clamped to [0,100],
blended 65/35; sigma over the last `CONSISTENCY_WINDOW_LAPS = 10` deltas;
trend compares the means of deltas[-6:-3] and deltas[-3:]. -/
def masteryRow (turn : Nat) (hist : CornerHist) : Option MasteryRow :=
  let deltas := hist.delta.filterMap id
  if deltas = [] then none
  else
    let mean_delta := deltas.sum / (deltas.length : ℚ)
    let sigma := stddev ((lastN 10 deltas).map some)
    let pace_score := clamp (100 - max 0 mean_delta * 260) 0 100
    let consistency_score := clamp (100 - sigma * 420) 0 100
    let score := 65/100 * pace_score + 35/100 * consistency_score
    let trend :=
      if 6 ≤ deltas.length then
        ((lastN 6 deltas).take 3).sum / 3 - (lastN 3 deltas).sum / 3
      else 0
    some ⟨turn, pyRound 1 score, pyRound 4 mean_delta, pyRound 4 sigma, pyRound 4 trend⟩

/-- Model of `F1Coach._update_corner_mastery` (lines 1416-1464): append this lap's
signals to the rolling history, then rebuild `self.corner_mastery` from the
histories in sorted key order. -/
def updateCornerMastery (st : AnalyticsState) (metrics : List CornerMetric) :
    AnalyticsState :=
  let ch := metrics.foldl (fun acc m => updateHistAt acc m.turn m) st.corner_history
  let rows := (List.insertionSort keyLE ch).filterMap (fun p => masteryRow p.1 p.2)
  { st with corner_history := ch, corner_mastery := rows }

/-- Python `max(l, key=sigma)`: the first row of maximal sigma. -/
def argmaxSigma (l : List SigmaRow) : Option SigmaRow :=
  match l with
  | [] => none
  | x :: rest => some (rest.foldl (fun b y => if b.sigma < y.sigma then y else b) x)

/-- Python `min(l, key=sigma)`: the first row of minimal sigma. -/
def argminSigma (l : List SigmaRow) : Option SigmaRow :=
  match l with
  | [] => none
  | x :: rest => some (rest.foldl (fun b y => if y.sigma < b.sigma then y else b) x)

/-- Model of `F1Coach._update_consistency_metrics` (lines 1466-1504): standard
deviations of the rolling lap/sector windows and of each corner's recent
deltas and brake points; `round(x, 4) if x else 0.0` maps a zero sigma to
0.0 unrounded. -/
def updateConsistency (st : AnalyticsState) : AnalyticsState :=
  let lap_sigma := stddev ((lastN 10 st.valid_lap_times).map some)
  let s1 := stddev ((lastN 10 st.sector1_history).map some)
  let s2 := stddev ((lastN 10 st.sector2_history).map some)
  let s3 := stddev ((lastN 10 st.sector3_history).map some)
  let corner_sigmas := st.corner_history.filterMap (fun p =>
    let dvals := lastN 10 (p.2.delta.filterMap id)
    if dvals = [] then none else some (SigmaRow.mk p.1 (stddev (dvals.map some))))
  let brake_sigmas := st.corner_history.filterMap (fun p =>
    let bvals := lastN 10 (p.2.brake.filterMap id)
    if 2 ≤ bvals.length then some (stddev (bvals.map some)) else none)
  let cm : ConsistencyMetrics :=
    { lap_sigma := if lap_sigma = 0 then 0 else pyRound 4 lap_sigma
      s1_sigma := if s1 = 0 then 0 else pyRound 4 s1
      s2_sigma := if s2 = 0 then 0 else pyRound 4 s2
      s3_sigma := if s3 = 0 then 0 else pyRound 4 s3
      most_inconsistent_corner :=
        (argmaxSigma corner_sigmas).map (fun r => ⟨r.turn, pyRound 4 r.sigma⟩)
      most_consistent_corner :=
        (argminSigma corner_sigmas).map (fun r => ⟨r.turn, pyRound 4 r.sigma⟩)
      braking_point_sigma :=
        if brake_sigmas = [] then none
        else some (pyRound 4 (brake_sigmas.sum / (brake_sigmas.length : ℚ))) }
  { st with consistency_metrics := cm }

/-- Lookup in `self.reference_corner_metrics` (a dict keyed by turn). -/
def lookupRef (l : List (Nat × CornerMetric)) (k : Nat) : Option CornerMetric :=
  (l.find? (fun p => p.1 == k)).map (·.2)

/-- Model of `F1Coach._update_skill_scores` (lines 1592-1638): per-corner differences
against the reference metrics, then five clamped linear combinations, each
rounded to one decimal. -/
def updateSkillScores (st : AnalyticsState) (metrics : List CornerMetric) :
    AnalyticsState :=
  let pairs := metrics.filterMap (fun m => (lookupRef st.reference_corner_metrics m.turn).map (fun r => (m, r)))
  let brake_diffs := pairs.filterMap (fun p =>
    match p.1.brake_point, p.2.brake_point with
    | some a, some b => some (a - b)
    | _, _ => none)
  let exit_losses := pairs.filterMap (fun p =>
    match p.1.exit_speed, p.2.exit_speed with
    | some a, some b => some (max 0 (b - a))
    | _, _ => none)
  let throttle_delays := pairs.filterMap (fun p =>
    match p.1.throttle_point, p.2.throttle_point with
    | some a, some b => some (max 0 (a - b))
    | _, _ => none)
  let apex_losses := pairs.filterMap (fun p =>
    match p.1.apex_speed, p.2.apex_speed with
    | some a, some b => some (max 0 (b - a))
    | _, _ => none)
  let brake_abs_mean :=
    if brake_diffs = [] then 18 else (brake_diffs.map (fun v => |v|)).sum / (brake_diffs.length : ℚ)
  let brake_sigma := stddev (brake_diffs.map some)
  let braking_precision := clamp (100 - brake_abs_mean * 23/10 - brake_sigma * 14/10) 0 100
  let throttle_jerk := ((st.driver_profile.map (·.throttle_jerk)).getD (8/100))
  let throttle_smoothness := clamp (100 - throttle_jerk * 650) 0 100
  let exit_loss := if exit_losses = [] then 10 else exit_losses.sum / (exit_losses.length : ℚ)
  let throttle_delay :=
    if throttle_delays = [] then 20 else throttle_delays.sum / (throttle_delays.length : ℚ)
  let corner_exit_quality := clamp (100 - exit_loss * 32/10 - throttle_delay * 12/10) 0 100
  let lap_sigma := st.consistency_metrics.lap_sigma
  let corner_sigma_vals := st.corner_mastery.map (·.consistency_sigma)
  let mean_corner_sigma :=
    if corner_sigma_vals = [] then 0 else corner_sigma_vals.sum / (corner_sigma_vals.length : ℚ)
  let consistency_score := clamp (100 - lap_sigma * 140 - mean_corner_sigma * 180) 0 100
  let apex_loss := if apex_losses = [] then 8 else apex_losses.sum / (apex_losses.length : ℚ)
  let steer_rate := ((st.driver_profile.map (·.turn_in_rate)).getD 1)
  let line_adherence := clamp (100 - apex_loss * 25/10 - steer_rate * 6) 0 100
  { st with skill_scores :=
      ⟨pyRound 1 braking_precision, pyRound 1 throttle_smoothness,
        pyRound 1 corner_exit_quality, pyRound 1 consistency_score,
        pyRound 1 line_adherence⟩ }

/-- The analytics recomputation for one closed lap, in the call order of
`_finish_lap` (lines 2206-2209): corner mastery, consistency metrics, skill
scores (`_update_driver_profile` is not among the three functions under
study and touches none of their outputs other than `driver_profile`, held
fixed here). -/
def recomputeAnalytics (st : AnalyticsState) (metrics : List CornerMetric) :
    AnalyticsState :=
  updateSkillScores (updateConsistency (updateCornerMastery st metrics)) metrics

/-! Concrete telemetry used by the scenario theorems. -/

/-- The synthetic reference lap of spec §8: 201 samples at a 2-unit spacing
over one 400-unit lap, brake 0.6 exactly on distances [100, 180] (41
samples, well over 3) and 0 elsewhere; constant speed, gear 3, no throttle,
no steering. -/
def c5lap : List Sample :=
  (List.range 201).map fun i =>
    let d : ℚ := 2 * i
    { lap_distance := d, current_lap_time := (i : ℚ) / 10, speed := 50,
      throttle := 0, brake := if 100 ≤ d ∧ d ≤ 180 then 3/5 else 0, gear := 3, steer := 0 }

/-- A coarser synthetic lap (30 samples at a 10-unit spacing, brake 0.6 on
[60, 140]) on which the combined detection and the looser fallback detector
each find exactly one corner, with different start distances. -/
def fbLap : List Sample :=
  (List.range 30).map fun i =>
    let d : ℚ := 10 * i
    { lap_distance := d, current_lap_time := (i : ℚ) / 2, speed := 50,
      throttle := 0, brake := if 60 ≤ d ∧ d ≤ 140 then 3/5 else 0, gear := 3, steer := 0 }

/-- A two-sample lap with no braking at all (no corners). -/
def quietLap : List Sample :=
  [⟨0, 0, 60, 1, 0, 4, 0⟩, ⟨400, 20, 60, 1, 0, 4, 0⟩]

/-- A demonstration braking zone starting at distance `s`. -/
def zdemo (s : ℚ) : Zone :=
  { start_dist := s, end_dist := s + 50, exit_dist := s + 95, entry_speed := 200,
    min_speed := 80, min_speed_dist := s + 25, min_gear := 2,
    brake_start_dist := some s, throttle_on_dist := none }

/-- Staleness predicate of the dequeue loop (lines 778-780): the anchor is
more than `valid_range` away, or the age exceeds 3 seconds. -/
def staleAt (d now : ℚ) (e : PQEntry) : Prop :=
  e.2.2.valid_range < |d - e.2.2.distance| ∨ 3 < now - e.2.2.timestamp

instance : ∀ d now e, Decidable (staleAt d now e) :=
  fun d now e =>
    inferInstanceAs (Decidable (e.2.2.valid_range < |d - e.2.2.distance| ∨ 3 < now - e.2.2.timestamp))

/-- Strict ordering of (distance, value) pairs: distances strictly
increasing, i.e. a series without duplicate distances. -/
def pairLT (a b : ℚ × ℚ) : Prop := a.1 < b.1

instance : DecidableRel pairLT := fun a b => inferInstanceAs (Decidable (a.1 < b.1))

/-- A session state in which corner 1 already holds ten delta samples
(1.25 followed by nine zeros) — the shape left by earlier laps. -/
def c9state : AnalyticsState :=
  ⟨[(1, ⟨[], [], [], [some (5/4), some 0, some 0, some 0, some 0,
      some 0, some 0, some 0, some 0, some 0], []⟩)],
    [], [], [], [], [], none, [], default, default⟩

/-- The closed lap's corner metrics: corner 1 with delta 0 against the
reference and no other signals. -/
def c9metrics : List CornerMetric := [⟨1, none, none, none, some 0, none, none⟩]

/-! Helper lemmas (shared across claims). -/

/-- Field-level description of one `_check_lap_validity` step. -/
theorem check_lap_validity_eq (st : ValidityState) (f : Bool) :
    check_lap_validity st f =
      ⟨f, st.lap_was_invalid || f,
        st.invalidation_events + (if f ∧ ¬ st.lap_was_invalid then 1 else 0)⟩ := by
  rcases st with ⟨i, w, e⟩
  cases f <;> cases w <;> simp [check_lap_validity]

/-- Closed form of a whole-lap run of the validity checker: the event count
rises by one exactly when the lap sees a raised flag (and the latch was
clear), the latch ORs all flags, and `lap_is_invalid` ends as the final
sample's flag. -/
theorem runValidity_eq (flags : List Bool) (st : ValidityState) :
    runValidity st flags =
      ⟨flags.getLastD st.lap_is_invalid,
        st.lap_was_invalid || flags.any id,
        st.invalidation_events +
          (if ¬ st.lap_was_invalid ∧ flags.any id = true then 1 else 0)⟩ := by
  induction flags generalizing st with
  | nil =>
    rcases st with ⟨i, w, e⟩
    simp [runValidity]
  | cons f rest ih =>
    have step : runValidity st (f :: rest) = runValidity (check_lap_validity st f) rest := by
      simp [runValidity]
    rw [step, ih, check_lap_validity_eq]
    rcases st with ⟨i, w, e⟩
    cases f <;> cases w <;> cases hr : rest.any id <;>
      simp [hr, List.getLastD_cons] <;> cases rest <;> simp_all [List.getLast?_cons]

/-- C1 (corrected): on the flag sequence 0,0,1,1,1,0 exactly one
invalidation event fires, but because line 1889 reassigns `lap_is_invalid`
to the instantaneous flag, the trailing 0 clears it again: at closure
`_finish_lap` reads `lap_is_invalid = False` (line 2073), takes the valid
path, and the lap is even promoted to reference — it is not classified
invalid and not discarded, contradicting the claimed monotonic-OR. -/
theorem C1_counterexample :
    (runValidity freshValidity [false, false, true, true, true, false]).invalidation_events = 1
  ∧ (runValidity freshValidity [false, false, true, true, true, false]).lap_is_invalid = false
  ∧ (finish_lap initRefEngine quietLap 92
        (runValidity freshValidity [false, false, true, true, true, false]).lap_is_invalid).reference
      = some (quietLap, 92) := by decide

/-- C1 (amended): over a fresh lap, exactly one invalidation event fires iff
some sample raises the flag (the latch `lap_was_invalid` ORs the flags), but
`lap_is_invalid` — the field `_finish_lap` classifies by — ends as the last
sample's flag, not as the OR: validity is edge-counted monotonically, yet
the closure classification follows the final flag, so a trailing 0 makes
the lap close as valid. -/
theorem C1_amended (flags : List Bool) :
    (runValidity freshValidity flags).invalidation_events
        = (if flags.any id = true then 1 else 0)
  ∧ (runValidity freshValidity flags).lap_was_invalid = flags.any id
  ∧ (runValidity freshValidity flags).lap_is_invalid = flags.getLastD false := by
  rw [runValidity_eq]
  simp [freshValidity]

/-- C6 (confirmed): with at least 3 pending entries, a medium-or-lower
priority (≥ 2) enqueue returns `False` and leaves the queued entries
unchanged; a critical/high priority (≤ 1) enqueue always returns `True`, as
does any enqueue with fewer than 3 pending entries, and an admitted message
is inserted into the queue. -/
theorem C6_admission (st : SmartTTSQueue) (msg : String) (p : Nat) (vr now : ℚ) :
    (3 ≤ st.queue.length ∧ 2 ≤ p →
        (st.put msg p vr now).1 = false ∧ (st.put msg p vr now).2.queue = st.queue)
  ∧ (2 ≤ p → st.queue.length < 3 → (st.put msg p vr now).1 = true)
  ∧ (p ≤ 1 → (st.put msg p vr now).1 = true)
  ∧ ((st.put msg p vr now).1 = true →
      (p, st.message_counter + 1,
          (⟨msg, st.current_distance, vr, now⟩ : QueuedMessage)) ∈ (st.put msg p vr now).2.queue) := by
  by_cases h : 3 ≤ st.queue.length ∧ 2 ≤ p
  · refine ⟨fun _ => ?_, fun h1 h2 => ?_, fun h1 => ?_, fun habs => ?_⟩
    · simp [SmartTTSQueue.put, h]
    · omega
    · omega
    · simp [SmartTTSQueue.put, h] at habs
  · refine ⟨fun hc => absurd hc h, fun _ _ => ?_, fun _ => ?_, fun _ => ?_⟩
    · simp [SmartTTSQueue.put, h]
    · simp [SmartTTSQueue.put, h]
    · have : (st.put msg p vr now).2.queue
          = List.orderedInsert entryLE
              (p, st.message_counter + 1, ⟨msg, st.current_distance, vr, now⟩) st.queue := by
        simp [SmartTTSQueue.put, h]
      rw [this]
      exact ((List.perm_orderedInsert entryLE _ _).mem_iff).2 (List.mem_cons_self _ _)

/-- C6 witness: a queue holding 3 entries rejects a 4th medium-priority
message and keeps its entries. -/
theorem C6_witness :
    (SmartTTSQueue.put
        ⟨[(0, 1, ⟨"a", 0, 200, 0⟩), (1, 2, ⟨"b", 0, 200, 0⟩), (2, 3, ⟨"c", 0, 200, 0⟩)], 0, 3⟩
        "d" 2 200 0).1 = false
  ∧ (SmartTTSQueue.put
        ⟨[(0, 1, ⟨"a", 0, 200, 0⟩), (1, 2, ⟨"b", 0, 200, 0⟩), (2, 3, ⟨"c", 0, 200, 0⟩)], 0, 3⟩
        "d" 2 200 0).2.queue
      = [(0, 1, ⟨"a", 0, 200, 0⟩), (1, 2, ⟨"b", 0, 200, 0⟩), (2, 3, ⟨"c", 0, 200, 0⟩)] :=
  (C6_admission
      ⟨[(0, 1, ⟨"a", 0, 200, 0⟩), (1, 2, ⟨"b", 0, 200, 0⟩), (2, 3, ⟨"c", 0, 200, 0⟩)], 0, 3⟩
      "d" 2 200 0).1 (by exact ⟨by decide, by decide⟩)

/-- The dequeue loop returns only fresh payloads, and everything it skipped
before the returned entry is stale and removed from the queue; when it
returns nothing the whole queue was stale (or empty) and is left empty. -/
theorem getLoop_spec (d now : ℚ) (l : List PQEntry) :
    (∀ m q, getLoop d now l = (some m, q) →
        (|d - m.distance| ≤ m.valid_range ∧ now - m.timestamp ≤ 3)
      ∧ ∃ pre p c, l = pre ++ (p, c, m) :: q ∧ ∀ e ∈ pre, staleAt d now e)
  ∧ (∀ q, getLoop d now l = (none, q) → q = [] ∧ ∀ e ∈ l, staleAt d now e) := by
  induction l with
  | nil =>
    constructor
    · intro m q h
      simp [getLoop] at h
    · intro q h
      simp [getLoop] at h
      simp [h]
  | cons hd rest ih =>
    obtain ⟨hp, hc, m0⟩ := hd
    by_cases hstale : |d - m0.distance| > m0.valid_range ∨ now - m0.timestamp > 3
    · have hred : getLoop d now ((hp, hc, m0) :: rest) = getLoop d now rest := by
        simp [getLoop, hstale]
      constructor
      · intro m q h
        rw [hred] at h
        obtain ⟨hfresh, pre, p, c, hdecomp, hpre⟩ := ih.1 m q h
        exact ⟨hfresh, (hp, hc, m0) :: pre, p, c, by simp [hdecomp],
          by
            intro e he
            rcases List.mem_cons.1 he with rfl | he2
            · exact hstale
            · exact hpre e he2⟩
      · intro q h
        rw [hred] at h
        obtain ⟨hq, hall⟩ := ih.2 q h
        refine ⟨hq, ?_⟩
        intro e he
        rcases List.mem_cons.1 he with rfl | he2
        · exact hstale
        · exact hall e he2
    · have hred : getLoop d now ((hp, hc, m0) :: rest) = (some m0, rest) := by
        simp [getLoop, hstale]
      push_neg at hstale
      constructor
      · intro m q h
        rw [hred] at h
        have hm : some m0 = some m := congrArg Prod.fst h
        have hq : rest = q := congrArg Prod.snd h
        cases Option.some.inj hm
        exact ⟨⟨hstale.1, hstale.2⟩, [], hp, hc, by simp [hq], by simp⟩
      · intro q h
        rw [hred] at h
        exact absurd (congrArg Prod.fst h) (by simp)

/-- C7 (confirmed): `get` never returns a stale message — any returned
payload is within its `valid_range` of the current distance and at most 3
seconds old; the entries skipped on the way out are stale and discarded
(the remaining queue is the part after the returned entry, so skipped
entries are not re-queued); in particular a message anchored at distance
1000 with `valid_range` 50 is never returned once the current distance
reaches 1051; and when nothing fresh exists, nothing is returned and the
stale backlog is dropped. -/
theorem C7_staleness (st : SmartTTSQueue) (d now : ℚ) :
    (∀ m q2, st.get d now = (some m, q2) →
        (|d - m.distance| ≤ m.valid_range ∧ now - m.timestamp ≤ 3)
      ∧ (∃ pre p c, st.queue = pre ++ (p, c, m) :: q2.queue ∧ ∀ e ∈ pre, staleAt d now e)
      ∧ (1051 ≤ d → ¬ (m.distance = 1000 ∧ m.valid_range = 50)))
  ∧ (∀ q2, st.get d now = (none, q2) → q2.queue = [] ∧ ∀ e ∈ st.queue, staleAt d now e) := by
  rcases hgl : getLoop d now st.queue with ⟨r1, r2⟩
  have hget : st.get d now = (r1, { st with queue := r2, current_distance := d }) := by
    simp [SmartTTSQueue.get, hgl]
  constructor
  · intro m q2 h
    rw [hget] at h
    have hr1 : r1 = some m := congrArg Prod.fst h
    have hq2 : q2 = { st with queue := r2, current_distance := d } := (congrArg Prod.snd h).symm
    subst hr1
    obtain ⟨hfresh, pre, p, c, hdecomp, hpre⟩ := (getLoop_spec d now st.queue).1 m r2 hgl
    refine ⟨hfresh, ⟨pre, p, c, by rw [hq2]; exact hdecomp, hpre⟩, ?_⟩
    rintro hd1051 ⟨hdist, hvr⟩
    have h1 : d - 1000 ≤ |d - m.distance| := by
      rw [hdist]
      exact le_abs_self _
    have h2 : |d - m.distance| ≤ 50 := hvr ▸ hfresh.1
    linarith
  · intro q2 h
    rw [hget] at h
    have hr1 : r1 = none := congrArg Prod.fst h
    have hq2 : q2 = { st with queue := r2, current_distance := d } := (congrArg Prod.snd h).symm
    subst hr1
    obtain ⟨hq, hall⟩ := (getLoop_spec d now st.queue).2 r2 hgl
    exact ⟨by rw [hq2]; exact hq, hall⟩

/-- C7 witness: with a stale entry (anchored at 1000, range 50) ahead of a
fresh one, `get` at distance 1051 returns the fresh payload, which indeed
satisfies the freshness bounds. -/
theorem C7_witness :
    |(1051 : ℚ) - (1040 : ℚ)| ≤ (100 : ℚ) ∧ (1 : ℚ) - (0 : ℚ) ≤ 3 :=
  ((C7_staleness
      ⟨[(0, 1, ⟨"a", 1000, 50, 0⟩), (1, 2, ⟨"b", 1040, 100, 0⟩)], 0, 2⟩ 1051 1).1
    ⟨"b", 1040, 100, 0⟩ ⟨[], 1051, 2⟩ (by decide)).1

/-- The nearest-sample lookup on a non-empty list returns a member
minimising the absolute distance to the query (first occurrence on ties). -/
theorem nearestSample_spec (d : ℚ) (l : List Sample) (h : l ≠ []) :
    ∃ s, nearestSample d l = some s ∧ s ∈ l
      ∧ ∀ t ∈ l, |s.lap_distance - d| ≤ |t.lap_distance - d| := by
  induction l with
  | nil => exact absurd rfl h
  | cons a rest ih =>
    cases rest with
    | nil =>
      refine ⟨a, by simp [nearestSample], by simp, ?_⟩
      intro t ht
      rcases List.mem_singleton.1 ht with rfl
      exact le_refl _
    | cons b rest2 =>
      obtain ⟨s, hs, hmem, hmin⟩ := ih (by simp)
      have hstep : nearestSample d (a :: b :: rest2)
          = match nearestSample d (b :: rest2) with
            | none => some a
            | some t =>
              if |a.lap_distance - d| ≤ |t.lap_distance - d| then some a else some t := rfl
      by_cases hle : |a.lap_distance - d| ≤ |s.lap_distance - d|
      · refine ⟨a, by rw [hstep, hs]; simp [hle], by simp, ?_⟩
        intro t ht
        rcases List.mem_cons.1 ht with rfl | ht2
        · exact le_refl _
        · exact le_trans hle (hmin t ht2)
      · refine ⟨s, by rw [hstep, hs]; simp [hle], List.mem_cons_of_mem _ hmem, ?_⟩
        intro t ht
        rcases List.mem_cons.1 ht with rfl | ht2
        · exact le_of_lt (lt_of_not_le hle)
        · exact hmin t ht2

/-- C3 (counterexample): with reference samples at distances 0 and 200
(times 0 and 10), live distance 150 and live time 8, the code returns
`8 - 10 = -2` (nearest sample), while the interpolated reference time at
150 is 7.5, so "current_lap_time minus the interpolated time" would be 0.5:
`calculate_delta` does not interpolate. -/
theorem C3_counterexample :
    calculate_delta ⟨some [⟨0, 0, 0, 0, 0, 0, 0⟩, ⟨200, 10, 0, 0, 0, 0, 0⟩], 150, 8⟩ = -2
  ∧ time_at_distance [⟨0, 0, 0, 0, 0, 0, 0⟩, ⟨200, 10, 0, 0, 0, 0, 0⟩] 150 = some (15/2)
  ∧ ((8 : ℚ) - 15/2 ≠ -2) := by decide

/-- C3 (amended): the live delta is 0 whenever no reference analyzer exists
or the lap distance is below 100; otherwise it is `current_lap_time` minus
the `current_lap_time` of a nearest reference sample (minimal
`|lap_distance - d|`, not an interpolated time). -/
theorem C3_amended (st : DeltaState) :
    ((st.track_analyzer = none ∨ st.current_lap_distance < 100) → calculate_delta st = 0)
  ∧ (∀ r, st.track_analyzer = some r → r ≠ [] → 100 ≤ st.current_lap_distance →
      ∃ s, s ∈ r
        ∧ (∀ t ∈ r, |s.lap_distance - st.current_lap_distance|
              ≤ |t.lap_distance - st.current_lap_distance|)
        ∧ calculate_delta st = st.current_lap_time - s.current_lap_time) := by
  constructor
  · rintro (hnone | hlt)
    · simp [calculate_delta, hnone]
    · rcases ha : st.track_analyzer with _ | r
      · simp [calculate_delta, ha]
      · simp [calculate_delta, ha, hlt]
  · intro r hr hne h100
    have hperm : (List.insertionSort distLE r).Perm r := List.perm_insertionSort distLE r
    have hsne : List.insertionSort distLE r ≠ [] := by
      intro habs
      rw [habs] at hperm
      exact hne (List.Perm.nil_eq hperm).symm
    obtain ⟨s, hs, hmem, hmin⟩ :=
      nearestSample_spec st.current_lap_distance (List.insertionSort distLE r) hsne
    refine ⟨s, hperm.mem_iff.1 hmem, ?_, ?_⟩
    · intro t ht
      exact hmin t (hperm.mem_iff.2 ht)
    · simp [calculate_delta, hr, not_lt.2 h100, hs]

/-- C3 witness: the amended statement applied to the concrete two-sample
reference state of the counterexample. -/
theorem C3_amended_witness :
    ∃ s, s ∈ [(⟨0, 0, 0, 0, 0, 0, 0⟩ : Sample), ⟨200, 10, 0, 0, 0, 0, 0⟩]
      ∧ (∀ t ∈ [(⟨0, 0, 0, 0, 0, 0, 0⟩ : Sample), ⟨200, 10, 0, 0, 0, 0, 0⟩],
            |s.lap_distance - (150 : ℚ)| ≤ |t.lap_distance - (150 : ℚ)|)
      ∧ calculate_delta ⟨some [⟨0, 0, 0, 0, 0, 0, 0⟩, ⟨200, 10, 0, 0, 0, 0, 0⟩], 150, 8⟩
          = 8 - s.current_lap_time :=
  (C3_amended ⟨some [⟨0, 0, 0, 0, 0, 0, 0⟩, ⟨200, 10, 0, 0, 0, 0, 0⟩], 150, 8⟩).2
    [⟨0, 0, 0, 0, 0, 0, 0⟩, ⟨200, 10, 0, 0, 0, 0, 0⟩] rfl (by decide) (by norm_num)

/-- In a start-sorted zone list the head has the smallest start distance. -/
theorem sorted_head_min (w : Zone) (rest : List Zone) (hs : (w :: rest).Sorted zoneLE) :
    ∀ y ∈ w :: rest, w.start_dist ≤ y.start_dist := by
  intro y hy
  rcases List.mem_cons.1 hy with rfl | hy2
  · exact le_refl _
  · exact (List.sorted_cons.1 hs).1 y hy2

/-- Model of `find?` for the first zone past the current distance, on a sorted list:
the result is a member, lies past the distance, and has minimal start among
the zones past the distance. -/
theorem find_next_spec (d : ℚ) (zones : List Zone) (hs : zones.Sorted zoneLE) (z : Zone)
    (h : zones.find? (fun z => decide (d < z.start_dist)) = some z) :
    z ∈ zones ∧ d < z.start_dist
      ∧ ∀ y ∈ zones, d < y.start_dist → z.start_dist ≤ y.start_dist := by
  induction zones with
  | nil => simp at h
  | cons w rest ih =>
    by_cases hp : d < w.start_dist
    · rw [List.find?_cons_of_pos _ (by simpa using hp)] at h
      have hwz : w = z := Option.some.inj h
      subst hwz
      exact ⟨by simp, hp, fun y hy _ => sorted_head_min w rest hs y hy⟩
    · rw [List.find?_cons_of_neg _ (by simpa using hp)] at h
      obtain ⟨hmem, hgt, hmin⟩ := ih (List.sorted_cons.1 hs).2 h
      refine ⟨List.mem_cons_of_mem _ hmem, hgt, ?_⟩
      intro y hy hdy
      rcases List.mem_cons.1 hy with rfl | hy2
      · exact absurd hdy hp
      · exact hmin y hy2 hdy

/-- C10 (confirmed): on the (start-sorted) braking-zone list,
`get_next_braking_zone` returns `None` exactly when the list is empty;
otherwise it returns a member that is strictly ahead of the current distance
whenever any zone is (and is the nearest such zone), and wraps to the zone
with the smallest start distance when the current distance is past every
start; and the braking-warning check turns a negative distance-to-zone
positive by adding the track length. -/
theorem C10_next_zone (zones : List Zone) (d : ℚ) (hs : zones.Sorted zoneLE) :
    (get_next_braking_zone zones d = none ↔ zones = [])
  ∧ (∀ z, get_next_braking_zone zones d = some z → z ∈ zones
      ∧ (d < z.start_dist ∨ ∀ y ∈ zones, y.start_dist ≤ d)
      ∧ (∀ y ∈ zones, d < y.start_dist → z.start_dist ≤ y.start_dist)
      ∧ ((∀ y ∈ zones, y.start_dist ≤ d) → ∀ y ∈ zones, z.start_dist ≤ y.start_dist))
  ∧ (∀ s c L : ℚ, s - c < 0 → distance_to_zone s c L = s - c + L) := by
  refine ⟨?_, ?_, ?_⟩
  · cases zones with
    | nil => simp [get_next_braking_zone]
    | cons w rest =>
      simp only [get_next_braking_zone]
      cases hf : (w :: rest).find? (fun z => decide (d < z.start_dist)) with
      | none => simp
      | some z0 => simp
  · intro z hz
    cases zones with
    | nil =>
      simp [get_next_braking_zone] at hz
    | cons w rest =>
      rw [get_next_braking_zone] at hz
      cases hf : (w :: rest).find? (fun z => decide (d < z.start_dist)) with
      | some z0 =>
        rw [hf] at hz
        have hz0 : z0 = z := Option.some.inj hz
        subst hz0
        obtain ⟨hmem, hgt, hmin⟩ := find_next_spec d (w :: rest) hs z0 hf
        exact ⟨hmem, Or.inl hgt, hmin, fun hall _ _ => absurd hgt (not_lt.2 (hall z0 hmem))⟩
      | none =>
        rw [hf] at hz
        simp only [List.head?_cons] at hz
        have hwz : w = z := Option.some.inj hz
        subst hwz
        have hall : ∀ y ∈ w :: rest, y.start_dist ≤ d := by
          intro y hy
          have := List.find?_eq_none.1 hf y hy
          simpa using this
        exact ⟨by simp, Or.inr hall,
          fun y hy hdy => absurd hdy (not_lt.2 (hall y hy)),
          fun _ => sorted_head_min w rest hs⟩
  · intro s c L h
    simp [distance_to_zone, h]

/-- C10 witness: with zones starting at 50 and 300 and the car at distance
400 (past both starts), the returned zone is a member of the list — the
wrap-around case — and the warning distance to a zone behind the car gains
the track length. -/
theorem C10_witness :
    zdemo 50 ∈ [zdemo 50, zdemo 300]
  ∧ distance_to_zone 50 400 600 = 50 - 400 + 600 :=
  ⟨((C10_next_zone [zdemo 50, zdemo 300] 400 (by decide)).2.1 (zdemo 50) (by decide)).1,
    (C10_next_zone [zdemo 50, zdemo 300] 400 (by decide)).2.2 50 400 600 (by norm_num)⟩

/-- The numbering pass hands out consecutive 1-based turn numbers in list
order, whatever the zones were before — numbering is always recomputed. -/
theorem numberCorners_turns (cs : List Zone) :
    (numberCorners cs).map (·.turn_number) = List.range' 1 cs.length := by
  suffices h : ∀ (n : Nat) (l : List Zone),
      ((List.enumFrom n l).map (fun p => { p.2 with turn_number := p.1 })).map (·.turn_number)
        = List.range' n l.length by
    exact h 1 cs
  intro n l
  induction l generalizing n with
  | nil => simp [List.range']
  | cons c rest ih => simp [List.enumFrom, List.range'_succ, ih]

/-- C2 (confirmed): closing laps 92.0 (invalid), 90.5 (valid), 90.0 (valid)
leaves the 90.0 lap as the reference; an invalid lap never touches the
reference; a valid lap is promoted exactly when no reference exists or its
time is strictly better, and a promotion re-segments the new reference lap
into a freshly numbered corner list (1-based, consecutive). -/
theorem C2_promotion :
    (finish_lap initRefEngine quietLap 92 true = initRefEngine
      ∧ (finish_lap initRefEngine quietLap (181/2) false).reference = some (quietLap, 181/2)
      ∧ finish_lap (finish_lap initRefEngine quietLap (181/2) false) fbLap 90 false
          = ⟨some (fbLap, 90), [⟨70, 180, 230, 50, 50, 70, 3, some 70, none, 1⟩]⟩)
  ∧ (∀ st data t, finish_lap st data t true = st)
  ∧ (∀ st data t, data ≠ [] → 0 < t →
        (st.reference = none →
            finish_lap st data t false = ⟨some (data, t), analyzeCorners data⟩)
      ∧ (∀ rdat rt, st.reference = some (rdat, rt) → t < rt →
            finish_lap st data t false = ⟨some (data, t), analyzeCorners data⟩)
      ∧ (∀ rdat rt, st.reference = some (rdat, rt) → rt ≤ t →
            finish_lap st data t false = st))
  ∧ (∀ cs, (numberCorners cs).map (·.turn_number) = List.range' 1 cs.length) := by
  refine ⟨⟨by decide, by decide, by decide⟩, ?_, ?_, numberCorners_turns⟩
  · intro st data t
    by_cases h : data = [] ∨ t ≤ 0 <;> simp [finish_lap, h]
  · intro st data t hne hpos
    have h1 : ¬ (data = [] ∨ t ≤ 0) := by
      push_neg
      exact ⟨hne, hpos⟩
    refine ⟨?_, ?_, ?_⟩
    · intro href
      simp [finish_lap, h1, href]
    · intro rdat rt href hlt
      simp [finish_lap, h1, href, hlt]
    · intro rdat rt href hle
      simp [finish_lap, h1, href, not_lt.2 hle]

/-- C2 witness: a valid lap slower than the current reference leaves the
reference in place. -/
theorem C2_witness :
    finish_lap ⟨some (quietLap, 90), []⟩ fbLap 95 false = ⟨some (quietLap, 90), []⟩ :=
  (C2_promotion.2.2.1 ⟨some (quietLap, 90), []⟩ fbLap 95 (by decide) (by norm_num)).2.2
    quietLap 90 rfl (by norm_num)

/-- C5 (confirmed): on the synthetic reference lap with brake 0.6 exactly on
distances [100, 180] (41 of the 201 samples, far more than 3) and 0
elsewhere, `_analyze` — trailing 5-sample moving average of brake, open
threshold 0.2, close threshold 0.1 — detects exactly one corner, numbered 1,
whose span approximates [100, 180] to within 10 units (five sample
spacings): it opens at 102 and closes at 188, the smoothing lag of the
trailing average. -/
theorem C5_segmentation :
    analyzeCorners c5lap
      = [⟨102, 188, 238, 50, 50, 102, 3, some 102, none, 1⟩]
  ∧ (c5lap.filter (fun s => decide (100 ≤ s.lap_distance ∧ s.lap_distance ≤ 180))).length = 41
  ∧ |(102 : ℚ) - 100| ≤ 10 ∧ |(188 : ℚ) - 180| ≤ 10 := by
  refine ⟨by decide, by decide, by norm_num, by norm_num⟩

/-- C8 (counterexample): on a lap where the combined detection finds one
corner (start 70) and the looser fallback detector also finds exactly one
(start 80), the fallback result is *not* used — line 640 keeps the combined
list unless the fallback is strictly longer — refuting "the fallback result
is used as the corner list" whenever fewer than 3 corners are found. -/
theorem C8_counterexample :
    (combinedCorners (analyzeDf fbLap)).length = 1
  ∧ fallbackCorners (analyzeDf fbLap) = [⟨80, 180, 225, 50, 50, 80, 3, some 80, none, 0⟩]
  ∧ analyzeCornersPre fbLap = [⟨70, 180, 230, 50, 50, 70, 3, some 70, none, 0⟩]
  ∧ analyzeCornersPre fbLap ≠ fallbackCorners (analyzeDf fbLap) := by
  refine ⟨by decide, by decide, by decide, by decide⟩

/-- C8 (amended): whenever the combined brake+steering detection finds fewer
than 3 corners, the looser brake-only fallback detector (open 0.25, close
0.1) is consulted instead of surfacing an error, and its result replaces the
corner list exactly when it finds strictly more corners than the combined
detection; otherwise the combined list is kept; the numbered corner list is
always built from whichever list won. -/
theorem C8_fallback (refRaw : List Sample)
    (hfew : (combinedCorners (analyzeDf refRaw)).length < 3) :
    ((combinedCorners (analyzeDf refRaw)).length < (fallbackCorners (analyzeDf refRaw)).length →
        analyzeCornersPre refRaw = fallbackCorners (analyzeDf refRaw))
  ∧ ((fallbackCorners (analyzeDf refRaw)).length ≤ (combinedCorners (analyzeDf refRaw)).length →
        analyzeCornersPre refRaw = combinedCorners (analyzeDf refRaw))
  ∧ analyzeCorners refRaw = numberCorners (analyzeCornersPre refRaw) := by
  refine ⟨?_, ?_, rfl⟩
  · intro hlonger
    simp [analyzeCornersPre, hfew, hlonger]
  · intro hshort
    simp [analyzeCornersPre, hfew, not_lt.2 hshort]

/-- C8 witness: on the concrete lap of the counterexample the fallback is
not longer than the combined list, so the combined list is kept. -/
theorem C8_fallback_witness :
    analyzeCornersPre fbLap = combinedCorners (analyzeDf fbLap) :=
  (C8_fallback fbLap (by decide)).2.1 (by decide)

/-- C9 (counterexample): recomputing the analytics a second time on the same
closed lap changes the mastery output — `_update_corner_mastery` appends the
lap's signals to the rolling history on every call, so the second run sees a
twice-appended delta history and reports a different `avg_delta` (0.1136 on
the first run, 0.1042 on the second): the combined recomputation is not
idempotent. -/
theorem C9_counterexample :
    (recomputeAnalytics (recomputeAnalytics c9state c9metrics) c9metrics).corner_mastery
      ≠ (recomputeAnalytics c9state c9metrics).corner_mastery := by decide

/-- C9 (amended): the consistency-metrics and skill-scores recomputations
are idempotent — each is a pure function of state fields it does not write —
but corner-mastery recomputation appends to `corner_history`, so analytics
recomputation as a whole is idempotent only in the two read-only stages. -/
theorem C9_idempotent (st : AnalyticsState) (metrics : List CornerMetric) :
    updateConsistency (updateConsistency st) = updateConsistency st
  ∧ updateSkillScores (updateSkillScores st metrics) metrics = updateSkillScores st metrics := by
  exact ⟨rfl, rfl⟩

/-- On an already-sorted series the stable sort is the identity, so
`_value_at_distance` reduces to its post-sort body. -/
theorem value_at_of_sorted (l : List (ℚ × ℚ)) (hs : l.Sorted pairLE) (d : ℚ) :
    value_at_distance l d = valueAtSorted l d := by
  unfold value_at_distance
  rw [hs.insertionSort_eq]

/-- In a sorted series every distance is at most the last one. -/
theorem mem_fst_le_getLast : ∀ (l : List (ℚ × ℚ)) (h : l ≠ []),
    l.Sorted pairLE → ∀ x ∈ l, x.1 ≤ (l.getLast h).1
  | [], h, _, _, _ => absurd rfl h
  | [a], _, _, x, hx => by
    rcases List.mem_singleton.1 hx with rfl
    exact le_refl _
  | a :: b :: rest, _, hs, x, hx => by
    rw [List.getLast_cons (by simp : b :: rest ≠ [])]
    rcases List.mem_cons.1 hx with rfl | hx2
    · exact (List.sorted_cons.1 hs).1 _ (List.getLast_mem _)
    · exact mem_fst_le_getLast (b :: rest) (by simp) (List.sorted_cons.1 hs).2 x hx2

/-- In a strictly sorted series, equal distances force equal samples. -/
theorem mem_eq_of_fst_eq (l : List (ℚ × ℚ)) (hs : l.Sorted pairLT) (x y : ℚ × ℚ)
    (hx : x ∈ l) (hy : y ∈ l) (hxy : x.1 = y.1) : x = y := by
  induction l with
  | nil => simp at hx
  | cons a rest ih =>
    rcases List.mem_cons.1 hx with rfl | hx2 <;> rcases List.mem_cons.1 hy with rfl | hy2
    · rfl
    · exact absurd hxy (ne_of_lt ((List.sorted_cons.1 hs).1 y hy2))
    · exact absurd hxy.symm (ne_of_lt ((List.sorted_cons.1 hs).1 x hx2))
    · exact ih (List.sorted_cons.1 hs).2 hx2 hy2

/-- The interpolation walk stays inside the series' value range: its result
sits between two member values. -/
theorem interpFrom_bounds (d : ℚ) (l : List (ℚ × ℚ)) : ∀ (prev : ℚ × ℚ),
    (prev :: l).Sorted pairLE → prev.1 < d →
    ∃ a b, a ∈ prev :: l ∧ b ∈ prev :: l
      ∧ a.2 ≤ interpFrom d prev l ∧ interpFrom d prev l ≤ b.2 := by
  induction l with
  | nil =>
    intro prev _ _
    exact ⟨prev, prev, by simp, by simp, le_refl _, le_refl _⟩
  | cons q rest ih =>
    intro prev hs hlt
    by_cases hdq : d ≤ q.1
    · by_cases hqp : q.1 ≤ prev.1
      · exact ⟨q, q, by simp, by simp,
          by simp [interpFrom, hdq, hqp], by simp [interpFrom, hdq, hqp]⟩
      · have hq : prev.1 < q.1 := lt_of_not_le hqp
        have ht0 : 0 ≤ (d - prev.1) / (q.1 - prev.1) :=
          div_nonneg (by linarith) (by linarith)
        have ht1 : (d - prev.1) / (q.1 - prev.1) ≤ 1 :=
          (div_le_one (by linarith)).2 (by linarith)
        have hval : interpFrom d prev (q :: rest)
            = prev.2 + (d - prev.1) / (q.1 - prev.1) * (q.2 - prev.2) := by
          simp [interpFrom, hdq, hqp]
        rcases le_total prev.2 q.2 with hc | hc
        · refine ⟨prev, q, by simp, by simp, ?_, ?_⟩ <;> rw [hval] <;> nlinarith
        · refine ⟨q, prev, by simp, by simp, ?_, ?_⟩ <;> rw [hval] <;> nlinarith
    · have hq : q.1 < d := lt_of_not_le hdq
      have hred : interpFrom d prev (q :: rest) = interpFrom d q rest := by
        simp [interpFrom, hdq]
      obtain ⟨a, b, ha, hb, h1, h2⟩ := ih q (List.sorted_cons.1 hs).2 hq
      exact ⟨a, b, List.mem_cons_of_mem _ ha, List.mem_cons_of_mem _ hb,
        hred ▸ h1, hred ▸ h2⟩

/-- On a strictly sorted series, when the query lies strictly inside the
span the interpolation walk finds two adjacent samples bracketing the query
and returns the linear interpolation between them. -/
theorem interpFrom_bracket (d : ℚ) (l : List (ℚ × ℚ)) : ∀ (prev : ℚ × ℚ),
    (prev :: l).Sorted pairLT → prev.1 < d → ∀ (h : l ≠ []),
    d ≤ (l.getLast h).1 →
    ∃ a b pre post, prev :: l = pre ++ a :: b :: post ∧ a.1 < d ∧ d ≤ b.1
      ∧ interpFrom d prev l = a.2 + (d - a.1) / (b.1 - a.1) * (b.2 - a.2) := by
  induction l with
  | nil => intro prev _ _ h; exact absurd rfl h
  | cons q rest ih =>
    intro prev hs hlt h hlast
    by_cases hdq : d ≤ q.1
    · have hq : prev.1 < q.1 := (List.sorted_cons.1 hs).1 q (by simp)
      have hqp : ¬ q.1 ≤ prev.1 := not_le.2 hq
      refine ⟨prev, q, [], rest, by simp, hlt, hdq, ?_⟩
      simp [interpFrom, hdq, hqp]
    · have hq : q.1 < d := lt_of_not_le hdq
      have hred : interpFrom d prev (q :: rest) = interpFrom d q rest := by
        simp [interpFrom, hdq]
      cases hrest : rest with
      | nil =>
        subst hrest
        simp only [List.getLast_singleton] at hlast
        exact absurd hlast (not_le.2 hq)
      | cons r rest2 =>
        subst hrest
        have hlast2 : d ≤ ((r :: rest2).getLast (by simp)).1 := by
          rw [List.getLast_cons (by simp)] at hlast
          exact hlast
        obtain ⟨a, b, pre, post, hdecomp, ha, hb, hval⟩ :=
          ih q (List.sorted_cons.1 hs).2 hq (by simp) hlast2
        exact ⟨a, b, prev :: pre, post, by rw [List.cons_append, ← hdecomp], ha, hb,
          hred ▸ hval⟩

/-- On a strictly sorted series the interpolation walk reproduces a member
value exactly when queried at its distance. -/
theorem interpFrom_exact (d : ℚ) (l : List (ℚ × ℚ)) : ∀ (prev : ℚ × ℚ),
    (prev :: l).Sorted pairLT → prev.1 < d →
    ∀ x ∈ l, x.1 = d → interpFrom d prev l = x.2 := by
  induction l with
  | nil => intro prev _ _ x hx; simp at hx
  | cons q rest ih =>
    intro prev hs hlt x hx hxd
    rcases List.mem_cons.1 hx with rfl | hx2
    · have hq : prev.1 < x.1 := (List.sorted_cons.1 hs).1 x (by simp)
      have hqp : ¬ x.1 ≤ prev.1 := not_le.2 hq
      have hdq : d ≤ x.1 := le_of_eq hxd.symm
      have hne : d - prev.1 ≠ 0 := by linarith
      simp only [interpFrom, if_pos hdq, if_neg hqp]
      rw [hxd]
      rw [div_self hne, one_mul]
      ring
    · have hqx : q.1 < x.1 := (List.sorted_cons.1 (List.sorted_cons.1 hs).2).1 x hx2
      have hdq : ¬ d ≤ q.1 := not_le.2 (hxd ▸ hqx)
      have hred : interpFrom d prev (q :: rest) = interpFrom d q rest := by
        simp [interpFrom, hdq]
      rw [hred]
      exact ih q (List.sorted_cons.1 hs).2 (hxd ▸ hqx) x hx2 hxd

/-- C4 (counterexample): on the distance-sorted series
[(0, 1), (0, 2), (10, 3)] — which carries two samples at distance 0 — the
lookup at distance 0 returns the first occurrence's value 1, so the sample
(0, 2) does *not* have its own value reproduced at its exact distance: the
claim fails on series with duplicate distances (ties are resolved to the
first occurrence). -/
theorem C4_counterexample :
    List.Sorted pairLE [((0 : ℚ), (1 : ℚ)), (0, 2), (10, 3)]
  ∧ value_at_distance [((0 : ℚ), (1 : ℚ)), (0, 2), (10, 3)] 0 = some 1
  ∧ ((0 : ℚ), (2 : ℚ)) ∈ [((0 : ℚ), (1 : ℚ)), (0, 2), (10, 3)]
  ∧ (1 : ℚ) ≠ 2 := by
  refine ⟨?_, by decide, by decide, by norm_num⟩
  simp [List.sorted_cons, pairLE]

/-- C4 (amended): for every non-empty series with *strictly* increasing
distances (no duplicate distances — with ties, the first/last occurrence
rule applies instead, as the counterexample shows), the lookup clamps to the
first value at or below the smallest distance and to the last value at or
above the largest; strictly inside the span it linearly interpolates between
two adjacent bracketing samples; the result always lies between two member
values (so never outside the series' min/max); and a query at a sample's
exact distance reproduces that sample's value. -/
theorem C4_interpolation (p : ℚ × ℚ) (rest : List (ℚ × ℚ)) (d : ℚ)
    (hs : (p :: rest).Sorted pairLT) :
    (∃ v, value_at_distance (p :: rest) d = some v
        ∧ (∃ a ∈ p :: rest, a.2 ≤ v) ∧ (∃ b ∈ p :: rest, v ≤ b.2))
  ∧ (d ≤ p.1 → value_at_distance (p :: rest) d = some p.2)
  ∧ (((p :: rest).getLast (List.cons_ne_nil p rest)).1 ≤ d →
        value_at_distance (p :: rest) d
          = some ((p :: rest).getLast (List.cons_ne_nil p rest)).2)
  ∧ (p.1 < d → d < ((p :: rest).getLast (List.cons_ne_nil p rest)).1 →
        ∃ a b pre post, p :: rest = pre ++ a :: b :: post ∧ a.1 < d ∧ d ≤ b.1
          ∧ value_at_distance (p :: rest) d
              = some (a.2 + (d - a.1) / (b.1 - a.1) * (b.2 - a.2)))
  ∧ (∀ x ∈ p :: rest, value_at_distance (p :: rest) x.1 = some x.2) := by
  have hle : (p :: rest).Sorted pairLE := hs.imp (fun h => le_of_lt h)
  have hrw : ∀ e, value_at_distance (p :: rest) e = valueAtSorted (p :: rest) e :=
    fun e => value_at_of_sorted _ hle e
  have hlast_mem : (p :: rest).getLast (List.cons_ne_nil p rest) ∈ p :: rest :=
    List.getLast_mem _
  have hclamp_low : ∀ e, e ≤ p.1 → value_at_distance (p :: rest) e = some p.2 := by
    intro e hep
    rw [hrw]
    simp [valueAtSorted, hep]
  have hclamp_high : ∀ e, ((p :: rest).getLast (List.cons_ne_nil p rest)).1 ≤ e →
      value_at_distance (p :: rest) e
        = some ((p :: rest).getLast (List.cons_ne_nil p rest)).2 := by
    intro e hlaste
    by_cases hep : e ≤ p.1
    · have h1 : p.1 ≤ ((p :: rest).getLast (List.cons_ne_nil p rest)).1 :=
        mem_fst_le_getLast _ _ hle p (by simp)
      have heq : p.1 = ((p :: rest).getLast (List.cons_ne_nil p rest)).1 := by linarith
      have hpe : p = (p :: rest).getLast (List.cons_ne_nil p rest) :=
        mem_eq_of_fst_eq _ hs p _ (by simp) hlast_mem heq
      rw [hclamp_low e hep]
      exact congrArg (fun t => some t.2) hpe
    · rw [hrw]
      simp [valueAtSorted, hep, hlaste]
  have hmid : ∀ e, p.1 < e → e < ((p :: rest).getLast (List.cons_ne_nil p rest)).1 →
      value_at_distance (p :: rest) e = some (interpFrom e p rest)
        ∧ rest ≠ [] := by
    intro e h1 h2
    have hep : ¬ e ≤ p.1 := not_le.2 h1
    have hlaste : ¬ ((p :: rest).getLast (List.cons_ne_nil p rest)).1 ≤ e := not_le.2 h2
    constructor
    · rw [hrw]
      simp [valueAtSorted, hep, hlaste]
    · intro habs
      subst habs
      simp only [List.getLast_singleton] at h2
      linarith
  refine ⟨?_, hclamp_low d, hclamp_high d, ?_, ?_⟩
  · by_cases hdp : d ≤ p.1
    · exact ⟨p.2, hclamp_low d hdp, ⟨p, by simp, le_refl _⟩, ⟨p, by simp, le_refl _⟩⟩
    · by_cases hdl : ((p :: rest).getLast (List.cons_ne_nil p rest)).1 ≤ d
      · exact ⟨_, hclamp_high d hdl,
          ⟨_, hlast_mem, le_refl _⟩, ⟨_, hlast_mem, le_refl _⟩⟩
      · obtain ⟨a, b, ha, hb, h1, h2⟩ :=
          interpFrom_bounds d rest p hle (lt_of_not_le hdp)
        refine ⟨interpFrom d p rest, ?_, ⟨a, ha, h1⟩, ⟨b, hb, h2⟩⟩
        exact (hmid d (lt_of_not_le hdp) (lt_of_not_le hdl)).1
  · intro h1 h2
    obtain ⟨hval, hne⟩ := hmid d h1 h2
    have hlast2 : d ≤ (rest.getLast hne).1 := by
      have : (p :: rest).getLast (List.cons_ne_nil p rest) = rest.getLast hne :=
        List.getLast_cons hne
      rw [this] at h2
      exact le_of_lt h2
    obtain ⟨a, b, pre, post, hdecomp, ha, hb, hv⟩ :=
      interpFrom_bracket d rest p hs h1 hne hlast2
    exact ⟨a, b, pre, post, hdecomp, ha, hb, by rw [hval, hv]⟩
  · intro x hx
    rcases List.mem_cons.1 hx with rfl | hx2
    · exact hclamp_low x.1 (le_refl _)
    · have hpx : p.1 < x.1 := (List.sorted_cons.1 hs).1 x hx2
      by_cases hdl : ((p :: rest).getLast (List.cons_ne_nil p rest)).1 ≤ x.1
      · have h1 : x.1 ≤ ((p :: rest).getLast (List.cons_ne_nil p rest)).1 :=
          mem_fst_le_getLast _ _ hle x hx
        have heq : x.1 = ((p :: rest).getLast (List.cons_ne_nil p rest)).1 := le_antisymm h1 hdl
        have hxe : x = (p :: rest).getLast (List.cons_ne_nil p rest) :=
          mem_eq_of_fst_eq _ hs x _ hx hlast_mem heq
        rw [hclamp_high x.1 hdl]
        exact congrArg (fun t => some t.2) hxe.symm
      · obtain ⟨hval, _⟩ := hmid x.1 hpx (lt_of_not_le hdl)
        rw [hval, interpFrom_exact x.1 rest p hs hpx x hx2 rfl]

/-- C4 witness: the amended statement applied to the strictly sorted
two-sample series [(0, 0), (10, 5)]: the query at the member distance 10
reproduces the member value 5. -/
theorem C4_witness :
    value_at_distance [((0 : ℚ), (0 : ℚ)), (10, 5)] 10 = some 5 :=
  (C4_interpolation (0, 0) [(10, 5)] 4
      (by simp [List.sorted_cons, pairLT])).2.2.2.2 (10, 5) (by simp)

end F1Telemetry
